import Mathlib

/-!
Shallow embedding of src/mpq.rs (crate bqmpq): extraction of the
staredit\scenario.chk entry from an MPQ archive via the stormlib bindings.

The stormlib capability is an opaque collaborator; each probe of the
well-known entry at one locale is parameterised by the values the capability
calls return (ProbeBehavior), and an Archive gives those values for every
locale.  Every operation also records the sequence of capability and
filesystem calls it performs (Event), so that resource hygiene, call
ordering and the mutual-exclusion discipline are statable.
-/

namespace Bqmpq

/-- Constant SFILE_INVALID_SIZE from the stormlib bindings: the sentinel
value SFileGetFileSize returns in its low word on failure. -/
def SFILE_INVALID_SIZE : Nat := 0xFFFFFFFF

/-- Constant ERROR_HANDLE_EOF from the stormlib bindings (StormPort.h); the
code only ever compares GetLastError against it, so only its identity
matters, not the numeral. -/
def ERROR_HANDLE_EOF : Nat := 1002

/-- The fixed locale preference list from get_chk_from_mpq_filename. -/
def locales : List Nat :=
  [0x404, 0x405, 0x407, 0x409, 0x40a, 0x40c, 0x410, 0x411, 0x412, 0x415,
   0x416, 0x419, 0x809, 0]

/-- Outcomes of the capability calls made by one locale probe
(SFileOpenFileEx, SFileGetFileInfo, SFileGetFileSize, SFileReadFile) on the
well-known entry.  Numeric fields are u32 values.  The field written is the
byte run SFileReadFile deposits at the start of the caller's buffer; size is
the bytes-read count it reports through its out parameter; read_last_error
is GetLastError after a failed read. -/
structure ProbeBehavior where
  open_file_ok : Bool
  get_file_info_ok : Bool
  gotten_locale : Nat
  file_size_low : Nat
  file_size_high : Nat
  read_file_ok : Bool
  read_last_error : Nat
  size : Nat
  written : List Nat
  deriving DecidableEq

/-- One capability or filesystem call performed during extraction, tagged
with the locale being probed where relevant. -/
inductive Event where
  | lockAcquire
  | lockRelease
  | sFileOpenArchive (ok : Bool)
  | sFileCloseArchive
  | sFileSetLocale (locale : Nat)
  | sFileOpenFileEx (locale : Nat) (ok : Bool)
  | sFileCloseFile (locale : Nat)
  | sFileGetFileInfo (locale : Nat)
  | sFileGetFileSize (locale : Nat)
  | sFileReadFile (locale : Nat)
  | fileCreate (ok : Bool)
  | fileWriteAll (content : List Nat) (ok : Bool)
  | fileFlush (ok : Bool)
  | removeFile
  deriving DecidableEq

/-- The distinct bail sites of the try_map_with_locale closure. -/
inductive ProbeError where
  | openFileFailed
  | getFileInfoFailed
  | localeMismatch
  | sizeQueryFailed
  | fileTooLarge
  | readFailed
  deriving DecidableEq

/-- The distinct bail sites of get_chk_from_mpq_filename outside the probe
closure: the CString conversion failures, SFileOpenArchive failure, and the
final bail after the locale loop is exhausted. -/
inductive ExtractError where
  | invalidPath
  | archiveOpenFailed
  | entryNotFound
  deriving DecidableEq

/-- Decidable equality for Except values, used to evaluate the embedding on
concrete inputs. -/
instance {ε α : Type} [DecidableEq ε] [DecidableEq α] : DecidableEq (Except ε α) :=
  fun x y =>
    match x, y with
    | .ok a, .ok b => decidable_of_iff (a = b) (by simp)
    | .error a, .error b => decidable_of_iff (a = b) (by simp)
    | .ok _, .error _ => isFalse (by simp)
    | .error _, .ok _ => isFalse (by simp)

/-- Vec resize with fill value 0: truncate to n, or extend with zero bytes
up to length n. -/
def vecResize (v : List Nat) (n : Nat) : List Nat :=
  v.take n ++ List.replicate (n - v.length) 0

/-- The buffer chk_data right after the SFileReadFile call: the code
allocates file_size_low zero bytes and the capability overwrites the start
of that buffer with the run it delivers. -/
def bufferAfterRead (b : ProbeBehavior) : List Nat :=
  b.written.take b.file_size_low ++
    List.replicate (b.file_size_low - b.written.length) 0

/-- The probe body that runs once SFileOpenFileEx has succeeded, up to but
not including the deferred SFileCloseFile: locale verification, size query
and guards, read with the tolerated end-of-stream short read, and the
unconditional resize to the reported bytes-read count. -/
def probeAfterOpen (b : ProbeBehavior) (locale : Nat) :
    Except ProbeError (List Nat) × List Event :=
  if b.get_file_info_ok = false then
    (.error .getFileInfoFailed, [.sFileGetFileInfo locale])
  else if b.gotten_locale ≠ locale then
    (.error .localeMismatch, [.sFileGetFileInfo locale])
  else if b.file_size_low = SFILE_INVALID_SIZE then
    (.error .sizeQueryFailed, [.sFileGetFileInfo locale, .sFileGetFileSize locale])
  else if b.file_size_high ≠ 0 then
    (.error .fileTooLarge, [.sFileGetFileInfo locale, .sFileGetFileSize locale])
  else if b.read_file_ok = false ∧
      (b.read_last_error ≠ ERROR_HANDLE_EOF ∨ b.size = b.file_size_low) then
    (.error .readFailed,
     [.sFileGetFileInfo locale, .sFileGetFileSize locale, .sFileReadFile locale])
  else
    (.ok (vecResize (bufferAfterRead b) b.size),
     [.sFileGetFileInfo locale, .sFileGetFileSize locale, .sFileReadFile locale])

/-- The try_map_with_locale closure: set the locale, open the well-known
entry (probe fails right here when that open fails), then run the body with
SFileCloseFile deferred to the end of the probe scope on every path.  The
CString conversion of the constant entry name never fails (it has no NUL
byte) and is omitted. -/
def try_map_with_locale (b : ProbeBehavior) (locale : Nat) :
    Except ProbeError (List Nat) × List Event :=
  if b.open_file_ok = false then
    (.error .openFileFailed, [.sFileSetLocale locale, .sFileOpenFileEx locale false])
  else
    let r := probeAfterOpen b locale
    (r.1, [.sFileSetLocale locale, .sFileOpenFileEx locale true] ++ r.2 ++
          [.sFileCloseFile locale])

/-- One open archive as the extraction observes it: whether SFileOpenArchive
succeeds, and, for each locale handed to SFileSetLocale, the outcomes of the
capability calls on the well-known entry. -/
structure Archive where
  open_archive_ok : Bool
  probe : Nat → ProbeBehavior

/-- The for-loop over the locale list: run the probe at each locale in
order; the first Ok probe returns immediately and when every probe fails
(each failure swallowed) the loop falls through. -/
def runLocales (A : Archive) : List Nat → Except ExtractError (List Nat) × List Event
  | [] => (.error .entryNotFound, [])
  | l :: ls =>
    let r := try_map_with_locale (A.probe l) l
    match r.1 with
    | .ok x => (.ok x, r.2)
    | .error _ =>
      let rest := runLocales A ls
      (rest.1, r.2 ++ rest.2)

/-- A filesystem path as the code sees it: Path.to_str yields the byte
string when the OS string is valid UTF-8 and nothing otherwise. -/
structure OsPath where
  to_str : Option (List Nat)
  deriving DecidableEq

/-- The CString conversion of the input path: to_str must succeed and
CString.new rejects an interior NUL byte. -/
def pathCString (p : OsPath) : Option (List Nat) :=
  match p.to_str with
  | none => none
  | some s => if 0 ∈ s then none else some s

/-- Body of get_chk_from_mpq_filename: convert the path (before the lock is
taken), acquire the process-wide mutex, open the archive read-only, and run
the locale loop with SFileCloseArchive deferred from the moment the open
succeeds and the lock guard dropped on every exit path. -/
def get_chk_from_mpq_filename (p : OsPath) (A : Archive) :
    Except ExtractError (List Nat) × List Event :=
  match pathCString p with
  | none => (.error .invalidPath, [])
  | some _ =>
    if A.open_archive_ok = false then
      (.error .archiveOpenFailed, [.lockAcquire, .sFileOpenArchive false, .lockRelease])
    else
      let r := runLocales A locales
      (r.1, [.lockAcquire, .sFileOpenArchive true] ++ r.2 ++
            [.sFileCloseArchive, .lockRelease])

/-- Byte string of the staging directory part of the staging path. -/
def tmpDirBytes : List Nat := [47, 116, 109, 112, 47]

/-- Byte string of the fixed extension of the staging path (the dot and the
three letters s, c, x), which stormlib's format detection requires. -/
def scxSuffix : List Nat := [46, 115, 99, 120]

/-- The staging path built by get_chk_from_mpq_in_memory: the staging
directory, then the fresh simple-hex uuid, then the fixed extension. -/
def stagingPathBytes (uuid : List Nat) : List Nat :=
  tmpDirBytes ++ uuid ++ scxSuffix

/-- The staging path as the OsPath handed to get_chk_from_mpq_filename; a
Rust String, hence valid UTF-8. -/
def stagingPath (uuid : List Nat) : OsPath :=
  ⟨some (stagingPathBytes uuid)⟩

/-- Recover the uuid component back out of a staging path byte string. -/
def stagingCore (bs : List Nat) : List Nat :=
  (bs.drop tmpDirBytes.length).take (bs.length - tmpDirBytes.length - scxSuffix.length)

/-- Outcomes of the three fallible filesystem steps of the staging adapter:
File.create, write_all, flush. -/
structure StagingBehavior where
  create_ok : Bool
  write_all_ok : Bool
  flush_ok : Bool
  deriving DecidableEq

/-- Result type of get_chk_from_mpq_in_memory: either one of its own
staging I/O failures or, verbatim, whatever get_chk_from_mpq_filename
returned. -/
inductive InMemError where
  | stagingIoFailed
  | extract (e : ExtractError)
  deriving DecidableEq

/-- Body of get_chk_from_mpq_in_memory: build the staging path, create the
file (a create failure propagates before the deferred remove_file is
registered, so no removal happens), then with removal deferred write the
whole buffer and flush it, and finally delegate to
get_chk_from_mpq_filename on the staging path, returning its result
verbatim. -/
def get_chk_from_mpq_in_memory (uuid mpq : List Nat) (sb : StagingBehavior)
    (A : Archive) : Except InMemError (List Nat) × List Event :=
  if sb.create_ok = false then
    (.error .stagingIoFailed, [.fileCreate false])
  else if sb.write_all_ok = false then
    (.error .stagingIoFailed, [.fileCreate true, .fileWriteAll mpq false, .removeFile])
  else if sb.flush_ok = false then
    (.error .stagingIoFailed,
     [.fileCreate true, .fileWriteAll mpq true, .fileFlush false, .removeFile])
  else
    let r := get_chk_from_mpq_filename (stagingPath uuid) A
    (match r.1 with
     | .ok x => .ok x
     | .error e => .error (.extract e),
     [.fileCreate true, .fileWriteAll mpq true, .fileFlush true] ++ r.2 ++
       [.removeFile])

/-- The locale an event carries, when it is one of the per-entry capability
calls of a probe. -/
def eventLocale : Event → Option Nat
  | .sFileSetLocale l => some l
  | .sFileOpenFileEx l _ => some l
  | .sFileCloseFile l => some l
  | .sFileGetFileInfo l => some l
  | .sFileGetFileSize l => some l
  | .sFileReadFile l => some l
  | _ => none

/-- Whether an event is an interaction with the archive-reading capability
(as opposed to the mutex or the staging filesystem). -/
def capabilityEvent : Event → Bool
  | .sFileOpenArchive _ => true
  | .sFileCloseArchive => true
  | .sFileSetLocale _ => true
  | .sFileOpenFileEx _ _ => true
  | .sFileCloseFile _ => true
  | .sFileGetFileInfo _ => true
  | .sFileGetFileSize _ => true
  | .sFileReadFile _ => true
  | _ => false

/-- A probe whose capability calls all succeed and report locale 0x404, a
one-byte entry with content 7. -/
def okProbe : ProbeBehavior :=
  { open_file_ok := true, get_file_info_ok := true, gotten_locale := 0x404,
    file_size_low := 1, file_size_high := 0, read_file_ok := true,
    read_last_error := 0, size := 1, written := [7] }

/-- An archive whose probe succeeds exactly at locale 0x404. -/
def okArchive : Archive := ⟨true, fun _ => okProbe⟩

/-- A valid one-byte path. -/
def okPath : OsPath := ⟨some [97]⟩

/-- A probe that resolves to locale 7 whatever locale was requested. -/
def mismatchProbe : ProbeBehavior :=
  { okProbe with gotten_locale := 7 }

/-- An archive serving mismatchProbe at every locale. -/
def mismatchArchive : Archive := ⟨true, fun _ => mismatchProbe⟩

/-- A probe reporting the invalid-size sentinel. -/
def invalidSizeProbe : ProbeBehavior :=
  { okProbe with gotten_locale := 0, file_size_low := SFILE_INVALID_SIZE }

/-- A probe reporting a size with a non-zero high word. -/
def bigSizeProbe : ProbeBehavior :=
  { okProbe with gotten_locale := 0, file_size_low := 4, file_size_high := 1 }

/-- A probe whose read reports success but delivers only one byte of a
three-byte entry. -/
def shortOkProbe : ProbeBehavior :=
  { open_file_ok := true, get_file_info_ok := true, gotten_locale := 0,
    file_size_low := 3, file_size_high := 0, read_file_ok := true,
    read_last_error := 0, size := 1, written := [9, 9, 9] }

/-- A probe whose read call fails with the end-of-stream error while the
reported bytes-read count 3 exceeds the requested length 2. -/
def readCexProbe : ProbeBehavior :=
  { open_file_ok := true, get_file_info_ok := true, gotten_locale := 5,
    file_size_low := 2, file_size_high := 0, read_file_ok := false,
    read_last_error := ERROR_HANDLE_EOF, size := 3, written := [5, 6] }

/-- A probe whose read call fails with end-of-stream after delivering one
byte of a three-byte entry. -/
def shortEofProbe : ProbeBehavior :=
  { open_file_ok := true, get_file_info_ok := true, gotten_locale := 0,
    file_size_low := 3, file_size_high := 0, read_file_ok := false,
    read_last_error := ERROR_HANDLE_EOF, size := 1, written := [9] }

/-- An archive in which no locale resolves an entry. -/
def noEntryArchive : Archive :=
  ⟨true, fun _ => { okProbe with open_file_ok := false }⟩

/-- Events of one thread, in order, read off a tagged interleaving of
several extraction calls. -/
def projEvents (i : Nat) (tt : List (Nat × Event)) : List Event :=
  (tt.filter (fun q => q.1 == i)).map Prod.snd

/-- One step of the process-wide mutex shared by all extraction calls: a
thread acquires it only when it is free and releases it only while holding
it; any other event leaves it unchanged. -/
def mutexStep (s : Option Nat) (q : Nat × Event) : Option (Option Nat) :=
  match q.2 with
  | .lockAcquire =>
    match s with
    | none => some (some q.1)
    | some _ => none
  | .lockRelease =>
    match s with
    | some j => if j = q.1 then some none else none
    | none => none
  | _ => some s

/-- Run the mutex semantics over a tagged trace, yielding the final holder
state when every step is admissible. -/
def mutexRun (s : Option Nat) : List (Nat × Event) → Option (Option Nat)
  | [] => some s
  | q :: tt =>
    match mutexStep s q with
    | none => none
    | some s2 => mutexRun s2 tt

/-- Thread i has acquired the gate and not yet released it at the end of the
tagged prefix tt. -/
def holdsLock (i : Nat) (tt : List (Nat × Event)) : Prop :=
  (projEvents i tt).count .lockRelease < (projEvents i tt).count .lockAcquire

instance (i : Nat) (tt : List (Nat × Event)) : Decidable (holdsLock i tt) := by
  unfold holdsLock
  infer_instance

/-- Initial-segment relation on lists: p followed by some remainder is t. -/
def IsInit {α : Type} (p t : List α) : Prop := ∃ s, p ++ s = t

/-- An archive whose open call fails. -/
def failOpenArchive : Archive := ⟨false, fun _ => okProbe⟩

/-- A two-thread interleaving in which thread 0 and then thread 1 each run
one full extraction call against failOpenArchive. -/
def wTrace : List (Nat × Event) :=
  [(0, .lockAcquire), (0, .sFileOpenArchive false), (0, .lockRelease),
   (1, .lockAcquire), (1, .sFileOpenArchive false), (1, .lockRelease)]

theorem bufferAfterRead_length (b : ProbeBehavior) :
    (bufferAfterRead b).length = b.file_size_low := by
  simp [bufferAfterRead]
  omega

theorem vecResize_length (v : List Nat) (n : Nat) : (vecResize v n).length = n := by
  simp [vecResize]
  omega

theorem probeAfterOpen_events (b : ProbeBehavior) (l : Nat) :
    ∀ e ∈ (probeAfterOpen b l).2,
      e = .sFileGetFileInfo l ∨ e = .sFileGetFileSize l ∨ e = .sFileReadFile l := by
  intro e he
  unfold probeAfterOpen at he
  split_ifs at he <;> simp at he <;> tauto

theorem try_map_events (b : ProbeBehavior) (l : Nat) :
    ∀ e ∈ (try_map_with_locale b l).2, eventLocale e = some l := by
  intro e he
  unfold try_map_with_locale at he
  split_ifs at he
  · simp at he
    rcases he with h | h <;> subst h <;> rfl
  · simp at he
    rcases he with h | h | h | h
    · subst h; rfl
    · subst h; rfl
    · rcases probeAfterOpen_events b l e h with h2 | h2 | h2 <;> subst h2 <;> rfl
    · subst h; rfl

theorem eventLocale_capability (e : Event) (l : Nat) (h : eventLocale e = some l) :
    capabilityEvent e = true := by
  cases e <;> simp [eventLocale] at h <;> rfl

theorem runLocales_events (A : Archive) (ls : List Nat) :
    ∀ e ∈ (runLocales A ls).2, ∃ l ∈ ls, eventLocale e = some l := by
  induction ls with
  | nil => intro e he; simp [runLocales] at he
  | cons l ls ih =>
    intro e he
    simp only [runLocales] at he
    rcases hr : (try_map_with_locale (A.probe l) l).1 with x | x <;>
      rw [hr] at he <;> simp at he
    · rcases he with he | he
      · exact ⟨l, by simp, try_map_events _ _ e he⟩
      · rcases ih e he with ⟨l2, hl2, hloc⟩
        exact ⟨l2, by simp [hl2], hloc⟩
    · exact ⟨l, by simp, try_map_events _ _ e he⟩

theorem runLocales_all_fail (A : Archive) (ls : List Nat)
    (h : ∀ l ∈ ls, ∃ e, (try_map_with_locale (A.probe l) l).1 = .error e) :
    (runLocales A ls).1 = .error .entryNotFound := by
  induction ls with
  | nil => rfl
  | cons l ls ih =>
    obtain ⟨e, he⟩ := h l (by simp)
    simp only [runLocales]
    rw [he]
    exact ih (fun l2 hl2 => h l2 (by simp [hl2]))

theorem runLocales_first_ok (A : Archive) (pre : List Nat) (l : Nat) (post : List Nat)
    (x : List Nat)
    (hpre : ∀ l2 ∈ pre, ∃ e, (try_map_with_locale (A.probe l2) l2).1 = .error e)
    (hl : (try_map_with_locale (A.probe l) l).1 = .ok x) :
    runLocales A (pre ++ l :: post) =
      (.ok x, (runLocales A pre).2 ++ (try_map_with_locale (A.probe l) l).2) := by
  induction pre with
  | nil =>
    simp only [List.nil_append, runLocales]
    rw [hl]
  | cons q pre ih =>
    obtain ⟨e, he⟩ := hpre q (by simp)
    have ih2 := ih (fun l2 hl2 => hpre l2 (by simp [hl2]))
    simp only [List.cons_append, List.append_eq, runLocales]
    rw [he, ih2]
    simp

/-- Claim C2: when the capability opens the well-known entry but reports a
resolved locale different from the locale just set, the probe fails with the
locale-mismatch bail, and the loop continues with the remaining locales:
the result over the whole list equals the result over the tail and the
failed probe contributes only its own capability calls to the trace. -/
theorem claim_C2_locale_mismatch (b : ProbeBehavior) (l : Nat) (A : Archive)
    (ls : List Nat) (h1 : b.open_file_ok = true) (h2 : b.get_file_info_ok = true)
    (h3 : b.gotten_locale ≠ l) (hA : A.probe l = b) :
    (try_map_with_locale b l).1 = .error .localeMismatch ∧
    (runLocales A (l :: ls)).1 = (runLocales A ls).1 ∧
    (runLocales A (l :: ls)).2 =
      (try_map_with_locale b l).2 ++ (runLocales A ls).2 := by
  have hp : (try_map_with_locale b l).1 = .error .localeMismatch := by
    simp [try_map_with_locale, probeAfterOpen, h1, h2, h3]
  refine ⟨hp, ?_, ?_⟩ <;>
    · simp only [runLocales]
      rw [hA, hp]

/-- Witness for claim C2 at a concrete mismatching probe. -/
theorem claim_C2_witness :
    (try_map_with_locale mismatchProbe 5).1 = .error .localeMismatch ∧
    (runLocales mismatchArchive (5 :: [0])).1 = (runLocales mismatchArchive [0]).1 ∧
    (runLocales mismatchArchive (5 :: [0])).2 =
      (try_map_with_locale mismatchProbe 5).2 ++ (runLocales mismatchArchive [0]).2 :=
  claim_C2_locale_mismatch mismatchProbe 5 mismatchArchive [0] rfl rfl
    (by decide) rfl

/-- Claim C4: the invalid-size sentinel fails the probe at the size-query
bail and a non-zero high size word fails it at the file-too-large bail; in
both cases SFileReadFile is never called, so no truncated or overflowed
buffer can be returned. -/
theorem claim_C4_size_guards :
    (∀ (b : ProbeBehavior) (l : Nat), b.open_file_ok = true →
      b.get_file_info_ok = true → b.gotten_locale = l →
      b.file_size_low = SFILE_INVALID_SIZE →
      (try_map_with_locale b l).1 = .error .sizeQueryFailed ∧
      Event.sFileReadFile l ∉ (try_map_with_locale b l).2) ∧
    (∀ (b : ProbeBehavior) (l : Nat), b.open_file_ok = true →
      b.get_file_info_ok = true → b.gotten_locale = l →
      b.file_size_low ≠ SFILE_INVALID_SIZE → b.file_size_high ≠ 0 →
      (try_map_with_locale b l).1 = .error .fileTooLarge ∧
      Event.sFileReadFile l ∉ (try_map_with_locale b l).2) := by
  constructor
  · intro b l h1 h2 h3 h4
    simp [try_map_with_locale, probeAfterOpen, h1, h2, h3, h4]
  · intro b l h1 h2 h3 h4 h5
    simp [try_map_with_locale, probeAfterOpen, h1, h2, h3, h4, h5]

/-- Witness for claim C4 at concrete probes triggering each size guard. -/
theorem claim_C4_witness :
    ((try_map_with_locale invalidSizeProbe 0).1 = .error .sizeQueryFailed ∧
      Event.sFileReadFile 0 ∉ (try_map_with_locale invalidSizeProbe 0).2) ∧
    ((try_map_with_locale bigSizeProbe 0).1 = .error .fileTooLarge ∧
      Event.sFileReadFile 0 ∉ (try_map_with_locale bigSizeProbe 0).2) :=
  ⟨claim_C4_size_guards.1 invalidSizeProbe 0 rfl rfl rfl rfl,
   claim_C4_size_guards.2 bigSizeProbe 0 rfl rfl rfl (by decide) (by decide)⟩

/-- Claim C10: on a probe whose read call reports success, the buffer is
still unconditionally resized to the reported bytes-read count: the probe
succeeds with the take of the buffer when the count is below the allocated
size (silent truncation, no failure) and with the buffer extended by zero
bytes when the count exceeds it, the final length always being the reported
count. -/
theorem claim_C10_unconditional_resize (b : ProbeBehavior) (l : Nat)
    (h1 : b.open_file_ok = true) (h2 : b.get_file_info_ok = true)
    (h3 : b.gotten_locale = l) (h4 : b.file_size_low ≠ SFILE_INVALID_SIZE)
    (h5 : b.file_size_high = 0) (h6 : b.read_file_ok = true) :
    (try_map_with_locale b l).1 = .ok (vecResize (bufferAfterRead b) b.size) ∧
    (vecResize (bufferAfterRead b) b.size).length = b.size ∧
    vecResize (bufferAfterRead b) b.size =
      (bufferAfterRead b).take b.size ++
        List.replicate (b.size - b.file_size_low) 0 := by
  refine ⟨?_, vecResize_length _ _, ?_⟩
  · simp [try_map_with_locale, probeAfterOpen, h1, h2, h3, h4, h5, h6]
  · unfold vecResize
    rw [bufferAfterRead_length]

/-- Witness for claim C10 at a successful read reporting a short count. -/
theorem claim_C10_witness :
    (try_map_with_locale shortOkProbe 0).1 =
      .ok (vecResize (bufferAfterRead shortOkProbe) shortOkProbe.size) ∧
    (vecResize (bufferAfterRead shortOkProbe) shortOkProbe.size).length =
      shortOkProbe.size ∧
    vecResize (bufferAfterRead shortOkProbe) shortOkProbe.size =
      (bufferAfterRead shortOkProbe).take shortOkProbe.size ++
        List.replicate (shortOkProbe.size - shortOkProbe.file_size_low) 0 :=
  claim_C10_unconditional_resize shortOkProbe 0 rfl rfl rfl (by decide) rfl rfl

/-- Counterexample to claim C3 as stated: this probe's read call fails, the
capability reports end-of-stream, and the delivered count is not strictly
less than the requested length (it is greater), so per the claim the probe
had to fail; instead the code tolerates it and the probe succeeds with the
zero-extended buffer. -/
theorem claim_C3_counterexample :
    readCexProbe.read_file_ok = false ∧
    readCexProbe.read_last_error = ERROR_HANDLE_EOF ∧
    ¬ readCexProbe.size < readCexProbe.file_size_low ∧
    (try_map_with_locale readCexProbe 5).1 = .ok [5, 6, 0] := by
  decide

/-- Claim C3 amended: a failed read is tolerated, with the buffer resized to
the reported bytes-read count, exactly when the capability reports the
end-of-stream error and the reported count differs from the requested
length; a read failure under any other condition fails the probe. -/
theorem claim_C3_short_read (b : ProbeBehavior) (l : Nat)
    (h1 : b.open_file_ok = true) (h2 : b.get_file_info_ok = true)
    (h3 : b.gotten_locale = l) (h4 : b.file_size_low ≠ SFILE_INVALID_SIZE)
    (h5 : b.file_size_high = 0) (h6 : b.read_file_ok = false) :
    (try_map_with_locale b l).1 =
      if b.read_last_error = ERROR_HANDLE_EOF ∧ b.size ≠ b.file_size_low then
        .ok (vecResize (bufferAfterRead b) b.size)
      else .error .readFailed := by
  by_cases hc1 : b.read_last_error = ERROR_HANDLE_EOF
  · by_cases hc2 : b.size = b.file_size_low
    · simp [try_map_with_locale, probeAfterOpen, h1, h2, h3, h4, h5, h6, hc1, hc2]
    · simp [try_map_with_locale, probeAfterOpen, h1, h2, h3, h4, h5, h6, hc1, hc2]
  · simp [try_map_with_locale, probeAfterOpen, h1, h2, h3, h4, h5, h6, hc1]

/-- Witness for the amended claim C3 at a concrete tolerated short read. -/
theorem claim_C3_witness :
    (try_map_with_locale shortEofProbe 0).1 =
      if shortEofProbe.read_last_error = ERROR_HANDLE_EOF ∧
          shortEofProbe.size ≠ shortEofProbe.file_size_low then
        .ok (vecResize (bufferAfterRead shortEofProbe) shortEofProbe.size)
      else .error .readFailed :=
  claim_C3_short_read shortEofProbe 0 rfl rfl rfl (by decide) rfl rfl

/-- Claim C5: when every locale in the list fails its probe (each failure
swallowed), the whole call returns exactly the entry-not-found failure, so
in particular no empty-byte success and no partial result. -/
theorem claim_C5_exhaustion (p : OsPath) (A : Archive)
    (hp : pathCString p ≠ none) (hA : A.open_archive_ok = true)
    (h : ∀ l ∈ locales, ∃ e, (try_map_with_locale (A.probe l) l).1 = .error e) :
    (get_chk_from_mpq_filename p A).1 = .error .entryNotFound := by
  rcases hq : pathCString p with _ | s
  · exact absurd hq hp
  · simp [get_chk_from_mpq_filename, hq, hA, runLocales_all_fail A locales h]

/-- Witness for claim C5 at an archive whose probes all fail. -/
theorem claim_C5_witness :
    (get_chk_from_mpq_filename okPath noEntryArchive).1 = .error .entryNotFound :=
  claim_C5_exhaustion okPath noEntryArchive (by decide) rfl
    (fun l _ => ⟨.openFileFailed, rfl⟩)

/-- Claim C6: a path that cannot be converted to the capability's string
representation fails with the invalid-path error and the call performs no
operation at all: the trace is empty, so in particular no archive open,
locale set, entry open, read or close is attempted. -/
theorem claim_C6_invalid_path (p : OsPath) (A : Archive)
    (hp : pathCString p = none) :
    (get_chk_from_mpq_filename p A).1 = .error .invalidPath ∧
    (get_chk_from_mpq_filename p A).2 = [] := by
  simp [get_chk_from_mpq_filename, hp]

/-- Witness for claim C6 at a non-UTF8 path. -/
theorem claim_C6_witness :
    (get_chk_from_mpq_filename ⟨none⟩ okArchive).1 = .error .invalidPath ∧
    (get_chk_from_mpq_filename ⟨none⟩ okArchive).2 = [] :=
  claim_C6_invalid_path ⟨none⟩ okArchive rfl

/-- Claim C1: when the locale list splits as pre, l, post, every probe over
pre fails and the probe at l succeeds, extraction returns exactly the bytes
of the probe at l — the earliest locale in the fixed preference list whose
probe passes, regardless of the archive's own internal order — and no
locale after l is ever tried: no set-locale call for any member of post
appears in the trace. -/
theorem claim_C1_locale_precedence (p : OsPath) (A : Archive) (pre post : List Nat)
    (l l2 : Nat) (x : List Nat)
    (hp : pathCString p ≠ none) (hA : A.open_archive_ok = true)
    (hsplit : locales = pre ++ l :: post)
    (hpre : ∀ l3 ∈ pre, ∃ e, (try_map_with_locale (A.probe l3) l3).1 = .error e)
    (hl : (try_map_with_locale (A.probe l) l).1 = .ok x)
    (hl2 : l2 ∈ post) :
    (get_chk_from_mpq_filename p A).1 = .ok x ∧
    Event.sFileSetLocale l2 ∉ (get_chk_from_mpq_filename p A).2 := by
  rcases hq : pathCString p with _ | s
  · exact absurd hq hp
  have hrun := runLocales_first_ok A pre l post x hpre hl
  have hnd : locales.Nodup := by decide
  rw [hsplit, List.nodup_append] at hnd
  obtain ⟨hnd1, hnd2, hdisj⟩ := hnd
  have hlpost : l ∉ post := (List.nodup_cons.mp hnd2).1
  have hl2pre : l2 ∉ pre := fun hmem => hdisj hmem (by simp [hl2])
  have hl2l : l2 ≠ l := fun hEq => hlpost (hEq ▸ hl2)
  constructor
  · simp [get_chk_from_mpq_filename, hq, hA, hsplit, hrun]
  · intro hmem
    simp [get_chk_from_mpq_filename, hq, hA, hsplit, hrun] at hmem
    rcases hmem with hmem | hmem
    · rcases runLocales_events A pre _ hmem with ⟨l3, hl3, hloc⟩
      simp [eventLocale] at hloc
      exact hl2pre (hloc ▸ hl3)
    · have hloc := try_map_events (A.probe l) l _ hmem
      simp [eventLocale] at hloc
      exact hl2l hloc

/-- Witness for claim C1: the probe at the first listed locale 0x404
succeeds, so extraction returns its bytes and the last listed locale 0 is
never set. -/
theorem claim_C1_witness :
    (get_chk_from_mpq_filename okPath okArchive).1 = .ok [7] ∧
    Event.sFileSetLocale 0 ∉ (get_chk_from_mpq_filename okPath okArchive).2 :=
  claim_C1_locale_precedence okPath okArchive []
    [0x405, 0x407, 0x409, 0x40a, 0x40c, 0x410, 0x411, 0x412, 0x415, 0x416,
     0x419, 0x809, 0]
    0x404 0 [7] (by decide) rfl rfl
    (fun l3 h3 => absurd h3 (List.not_mem_nil l3)) (by decide) (by decide)

theorem probeAfterOpen_count_closeFile (b : ProbeBehavior) (l l2 : Nat) :
    (probeAfterOpen b l).2.count (.sFileCloseFile l2) = 0 := by
  rw [List.count_eq_zero]
  intro hx
  rcases probeAfterOpen_events b l _ hx with h | h | h <;> simp at h

theorem probeAfterOpen_count_openFileEx (b : ProbeBehavior) (l l2 : Nat) :
    (probeAfterOpen b l).2.count (.sFileOpenFileEx l2 true) = 0 := by
  rw [List.count_eq_zero]
  intro hx
  rcases probeAfterOpen_events b l _ hx with h | h | h <;> simp at h

theorem try_map_count_balance (b : ProbeBehavior) (l l2 : Nat) :
    (try_map_with_locale b l).2.count (.sFileCloseFile l2) =
    (try_map_with_locale b l).2.count (.sFileOpenFileEx l2 true) := by
  unfold try_map_with_locale
  split_ifs with h
  · simp
  · simp [List.count_append, probeAfterOpen_count_closeFile,
      probeAfterOpen_count_openFileEx, List.count_cons]

theorem runLocales_count_balance (A : Archive) (ls : List Nat) (l2 : Nat) :
    (runLocales A ls).2.count (.sFileCloseFile l2) =
    (runLocales A ls).2.count (.sFileOpenFileEx l2 true) := by
  induction ls with
  | nil => rfl
  | cons l ls ih =>
    simp only [runLocales]
    rcases hr : (try_map_with_locale (A.probe l) l).1 with e | x <;>
      simp [List.count_append, try_map_count_balance, ih]

theorem runLocales_count_nolocale (A : Archive) (ls : List Nat) (x : Event)
    (hx : eventLocale x = none) : (runLocales A ls).2.count x = 0 := by
  rw [List.count_eq_zero]
  intro hmem
  rcases runLocales_events A ls x hmem with ⟨l3, _, hloc⟩
  rw [hx] at hloc
  exact Option.noConfusion hloc

theorem get_chk_entry_balance (p : OsPath) (A : Archive) (l2 : Nat) :
    (get_chk_from_mpq_filename p A).2.count (.sFileCloseFile l2) =
    (get_chk_from_mpq_filename p A).2.count (.sFileOpenFileEx l2 true) := by
  rcases hq : pathCString p with _ | s
  · simp [get_chk_from_mpq_filename, hq]
  · rcases hA : A.open_archive_ok with _ | _
    · simp [get_chk_from_mpq_filename, hq, hA]
    · simp [get_chk_from_mpq_filename, hq, hA, List.count_append,
        runLocales_count_balance]

theorem get_chk_archive_balance (p : OsPath) (A : Archive) :
    (get_chk_from_mpq_filename p A).2.count .sFileCloseArchive =
    (get_chk_from_mpq_filename p A).2.count (.sFileOpenArchive true) := by
  rcases hq : pathCString p with _ | s
  · simp [get_chk_from_mpq_filename, hq]
  · rcases hA : A.open_archive_ok with _ | _
    · simp [get_chk_from_mpq_filename, hq, hA]
    · simp [get_chk_from_mpq_filename, hq, hA, List.count_append,
        runLocales_count_nolocale A locales Event.sFileCloseArchive rfl,
        runLocales_count_nolocale A locales (Event.sFileOpenArchive true) rfl]

theorem get_chk_count_staging (p : OsPath) (A : Archive) (x : Event)
    (hx : eventLocale x = none) (h1 : x ≠ .lockAcquire) (h0 : x ≠ .lockRelease)
    (h3 : ∀ bb, x ≠ .sFileOpenArchive bb) (h4 : x ≠ .sFileCloseArchive) :
    (get_chk_from_mpq_filename p A).2.count x = 0 := by
  rw [List.count_eq_zero]
  intro hmem
  rcases hq : pathCString p with _ | s
  · simp [get_chk_from_mpq_filename, hq] at hmem
  · rcases hA : A.open_archive_ok with _ | _
    · simp [get_chk_from_mpq_filename, hq, hA] at hmem
      rcases hmem with h | h | h
      · exact h1 h
      · exact h3 false h
      · exact h0 h
    · simp [get_chk_from_mpq_filename, hq, hA] at hmem
      rcases hmem with h | h | h | h | h
      · exact h1 h
      · exact h3 true h
      · rcases runLocales_events A locales x h with ⟨l3, _, hloc⟩
        rw [hx] at hloc
        exact Option.noConfusion hloc
      · exact h4 h
      · exact h0 h

theorem try_map_last (b : ProbeBehavior) (l : Nat) :
    (try_map_with_locale b l).2.getLast? =
      some (if b.open_file_ok then .sFileCloseFile l else .sFileOpenFileEx l false) := by
  rcases hb : b.open_file_ok with _ | _
  · simp [try_map_with_locale, hb]
  · have ht : (try_map_with_locale b l).2 =
        ([.sFileSetLocale l, .sFileOpenFileEx l true] ++ (probeAfterOpen b l).2) ++
          [.sFileCloseFile l] := by
      simp [try_map_with_locale, hb]
    rw [ht, List.getLast?_concat]
    simp

/-- Claim C7: resource hygiene on every exit path.  In every trace of the
path-based extraction the archive close count equals the successful archive
open count and, per locale, the entry close count equals the successful
entry open count; every probe's own trace ends with the entry close whenever
its open succeeded (the close happens before control leaves the probe); and
in every trace of the in-memory adapter the staging-file deletion count
equals the successful creation count, with the same archive and entry
handle balance inherited. -/
theorem claim_C7_resource_hygiene :
    (∀ (p : OsPath) (A : Archive),
      (get_chk_from_mpq_filename p A).2.count .sFileCloseArchive =
        (get_chk_from_mpq_filename p A).2.count (.sFileOpenArchive true)) ∧
    (∀ (p : OsPath) (A : Archive) (l : Nat),
      (get_chk_from_mpq_filename p A).2.count (.sFileCloseFile l) =
        (get_chk_from_mpq_filename p A).2.count (.sFileOpenFileEx l true)) ∧
    (∀ (b : ProbeBehavior) (l : Nat),
      (try_map_with_locale b l).2.getLast? =
        some (if b.open_file_ok then .sFileCloseFile l else .sFileOpenFileEx l false)) ∧
    (∀ (uuid mpq : List Nat) (sb : StagingBehavior) (A : Archive),
      (get_chk_from_mpq_in_memory uuid mpq sb A).2.count .removeFile =
        (get_chk_from_mpq_in_memory uuid mpq sb A).2.count (.fileCreate true) ∧
      (get_chk_from_mpq_in_memory uuid mpq sb A).2.count .sFileCloseArchive =
        (get_chk_from_mpq_in_memory uuid mpq sb A).2.count (.sFileOpenArchive true) ∧
      ∀ l, (get_chk_from_mpq_in_memory uuid mpq sb A).2.count (.sFileCloseFile l) =
        (get_chk_from_mpq_in_memory uuid mpq sb A).2.count (.sFileOpenFileEx l true)) := by
  refine ⟨get_chk_archive_balance, get_chk_entry_balance, try_map_last, ?_⟩
  intro uuid mpq sb A
  rcases hc : sb.create_ok with _ | _
  · simp [get_chk_from_mpq_in_memory, hc]
  rcases hw : sb.write_all_ok with _ | _
  · simp [get_chk_from_mpq_in_memory, hc, hw]
  rcases hf : sb.flush_ok with _ | _
  · simp [get_chk_from_mpq_in_memory, hc, hw, hf]
  · have hrm := get_chk_count_staging (stagingPath uuid) A Event.removeFile rfl
      (by simp) (by simp) (fun bb => by simp) (by simp)
    have hfc := get_chk_count_staging (stagingPath uuid) A (.fileCreate true) rfl
      (by simp) (by simp) (fun bb => by simp) (by simp)
    simp [get_chk_from_mpq_in_memory, hc, hw, hf, List.count_append,
      List.count_cons, hrm, hfc, get_chk_archive_balance, get_chk_entry_balance]

/-- Claim C8: on the successful staging path the in-memory adapter creates
the staging file, writes the entire input buffer and flushes it before any
delegated event, then invokes the path-based extractor on the staging path
and returns its result verbatim (success or failure), adding no extraction
logic; the staging path carries the staging directory and the fixed scx
extension, and the uuid component is recoverable from the path, so distinct
uuids give distinct staging paths. -/
theorem claim_C8_staging_adapter (uuid mpq : List Nat) (sb : StagingBehavior)
    (A : Archive) (h1 : sb.create_ok = true) (h2 : sb.write_all_ok = true)
    (h3 : sb.flush_ok = true) :
    (get_chk_from_mpq_in_memory uuid mpq sb A).1 =
      (match (get_chk_from_mpq_filename (stagingPath uuid) A).1 with
       | .ok x => .ok x
       | .error e => .error (.extract e)) ∧
    (get_chk_from_mpq_in_memory uuid mpq sb A).2 =
      [.fileCreate true, .fileWriteAll mpq true, .fileFlush true] ++
        (get_chk_from_mpq_filename (stagingPath uuid) A).2 ++ [.removeFile] ∧
    (stagingPath uuid).to_str = some (tmpDirBytes ++ uuid ++ scxSuffix) ∧
    (stagingPathBytes uuid).drop (tmpDirBytes.length + uuid.length) = scxSuffix ∧
    stagingCore (stagingPathBytes uuid) = uuid := by
  refine ⟨?_, ?_, rfl, ?_, ?_⟩
  · simp [get_chk_from_mpq_in_memory, h1, h2, h3]
  · simp [get_chk_from_mpq_in_memory, h1, h2, h3]
  · rw [show tmpDirBytes.length + uuid.length = (tmpDirBytes ++ uuid).length by simp]
    exact List.drop_left _ _
  · unfold stagingCore
    rw [show stagingPathBytes uuid = tmpDirBytes ++ (uuid ++ scxSuffix) from by
      simp [stagingPathBytes]]
    rw [List.drop_left]
    have harith : (tmpDirBytes ++ (uuid ++ scxSuffix)).length - tmpDirBytes.length -
        scxSuffix.length = uuid.length := by
      simp [tmpDirBytes, scxSuffix]
    rw [harith, List.take_left]

/-- Witness for claim C8 at a concrete buffer, uuid and archive. -/
theorem claim_C8_witness :
    (get_chk_from_mpq_in_memory [97] [1, 2] ⟨true, true, true⟩ okArchive).1 =
      (match (get_chk_from_mpq_filename (stagingPath [97]) okArchive).1 with
       | .ok x => .ok x
       | .error e => .error (.extract e)) ∧
    (get_chk_from_mpq_in_memory [97] [1, 2] ⟨true, true, true⟩ okArchive).2 =
      [.fileCreate true, .fileWriteAll [1, 2] true, .fileFlush true] ++
        (get_chk_from_mpq_filename (stagingPath [97]) okArchive).2 ++ [.removeFile] ∧
    (stagingPath [97]).to_str = some (tmpDirBytes ++ [97] ++ scxSuffix) ∧
    (stagingPathBytes [97]).drop (tmpDirBytes.length + [97].length) = scxSuffix ∧
    stagingCore (stagingPathBytes [97]) = [97] :=
  claim_C8_staging_adapter [97] [1, 2] ⟨true, true, true⟩ okArchive rfl rfl rfl

theorem projEvents_append (i : Nat) (a b : List (Nat × Event)) :
    projEvents i (a ++ b) = projEvents i a ++ projEvents i b := by
  simp [projEvents]

theorem IsInit_trans {α : Type} {a b c : List α} (h1 : IsInit a b)
    (h2 : IsInit b c) : IsInit a c := by
  rcases h1 with ⟨r1, rfl⟩
  rcases h2 with ⟨r2, rfl⟩
  exact ⟨r1 ++ r2, by simp⟩

theorem IsInit_proj {i : Nat} {p t : List (Nat × Event)} (h : IsInit p t) :
    IsInit (projEvents i p) (projEvents i t) := by
  rcases h with ⟨s, rfl⟩
  exact ⟨projEvents i s, (projEvents_append i p s).symm⟩

theorem mutexRun_append (a b : List (Nat × Event)) (s0 : Option Nat) :
    mutexRun s0 (a ++ b) =
      match mutexRun s0 a with
      | none => none
      | some s1 => mutexRun s1 b := by
  induction a generalizing s0 with
  | nil => rfl
  | cons q a ih =>
    simp only [List.cons_append, mutexRun]
    cases mutexStep s0 q with
    | none => rfl
    | some s2 => exact ih s2

theorem mutexStep_other (s0 : Option Nat) (j : Nat) (e : Event)
    (h1 : e ≠ .lockAcquire) (h2 : e ≠ .lockRelease) :
    mutexStep s0 (j, e) = some s0 := by
  cases e <;> simp [mutexStep] <;> simp_all

theorem mutexRun_count (tt : List (Nat × Event)) : ∀ (s0 s : Option Nat),
    mutexRun s0 tt = some s → ∀ i : Nat,
    (projEvents i tt).count .lockAcquire + (if s0 = some i then 1 else 0) =
      (projEvents i tt).count .lockRelease + (if s = some i then 1 else 0) := by
  induction tt with
  | nil =>
    intro s0 s h i
    simp only [mutexRun, Option.some.injEq] at h
    subst h
    rfl
  | cons q tt ih =>
    intro s0 s h i
    rcases q with ⟨j, e⟩
    simp only [mutexRun] at h
    rcases hstep : mutexStep s0 (j, e) with _ | s2 <;> rw [hstep] at h
    · exact absurd h (by simp)
    have hc := ih s2 s h i
    have hproj : projEvents i ((j, e) :: tt) =
        (if j = i then [e] else []) ++ projEvents i tt := by
      simp only [projEvents, List.filter_cons]
      by_cases hqi : j = i <;> simp [hqi]
    rw [hproj]
    by_cases he1 : e = .lockAcquire
    · subst he1
      rcases s0 with _ | k
      · simp [mutexStep] at hstep
        subst hstep
        by_cases hji : j = i <;>
          simp [hji, List.count_append, List.count_cons] at hc ⊢ <;> omega
      · simp [mutexStep] at hstep
    · by_cases he2 : e = .lockRelease
      · subst he2
        rcases s0 with _ | k
        · simp [mutexStep] at hstep
        · simp only [mutexStep] at hstep
          split_ifs at hstep with hkj
          · injection hstep with hs2
            subst hkj
            subst hs2
            by_cases hji : k = i <;>
              simp [hji, List.count_append, List.count_cons] at hc ⊢ <;> omega
      · rw [mutexStep_other s0 j e he1 he2] at hstep
        injection hstep with hs2
        subst hs2
        by_cases hji : j = i <;>
          simp [hji, List.count_append, List.count_cons, he1, he2] at hc ⊢ <;>
            omega

theorem holdsLock_unique (tt p : List (Nat × Event)) (i j : Nat)
    (hadm : (mutexRun none tt).isSome = true) (hp : IsInit p tt)
    (hi : holdsLock i p) (hj : holdsLock j p) : i = j := by
  rcases hp with ⟨r, rfl⟩
  rw [mutexRun_append] at hadm
  rcases hrun : mutexRun none p with _ | s
  · rw [hrun] at hadm
    simp at hadm
  · have hi2 := mutexRun_count p none s hrun i
    have hj2 := mutexRun_count p none s hrun j
    unfold holdsLock at hi hj
    have hsi : s = some i := by
      by_cases h : s = some i
      · exact h
      · simp [h] at hi2
        omega
    have hsj : s = some j := by
      by_cases h : s = some j
      · exact h
      · simp [h] at hj2
        omega
    rw [hsi] at hsj
    injection hsj

theorem get_chk_trace_shape (p : OsPath) (A : Archive) :
    (get_chk_from_mpq_filename p A).2 = [] ∨
    ∃ mid, (get_chk_from_mpq_filename p A).2 =
        .lockAcquire :: (mid ++ [.lockRelease]) ∧
      ∀ e ∈ mid, capabilityEvent e = true := by
  rcases hq : pathCString p with _ | s
  · left
    simp [get_chk_from_mpq_filename, hq]
  · right
    rcases hA : A.open_archive_ok with _ | _
    · refine ⟨[.sFileOpenArchive false], ?_, ?_⟩
      · simp [get_chk_from_mpq_filename, hq, hA]
      · intro e he
        simp at he
        subst he
        rfl
    · refine ⟨.sFileOpenArchive true :: (runLocales A locales).2 ++
        [.sFileCloseArchive], ?_, ?_⟩
      · simp [get_chk_from_mpq_filename, hq, hA]
      · intro e he
        simp at he
        rcases he with h | h | h
        · subst h; rfl
        · rcases runLocales_events A locales e h with ⟨l3, _, hloc⟩
          exact eventLocale_capability e l3 hloc
        · subst h; rfl

theorem capability_inside_gate (tt : List (Nat × Event))
    (cfg : Nat → OsPath × Archive)
    (hprog : ∀ k, IsInit (projEvents k tt)
      (get_chk_from_mpq_filename (cfg k).1 (cfg k).2).2)
    (q : List (Nat × Event)) (i : Nat) (e : Event)
    (hq : IsInit (q ++ [(i, e)]) tt) (hcap : capabilityEvent e = true) :
    holdsLock i q := by
  have h1 : IsInit (projEvents i (q ++ [(i, e)])) (projEvents i tt) :=
    IsInit_proj hq
  have h2 : projEvents i (q ++ [(i, e)]) = projEvents i q ++ [e] := by
    rw [projEvents_append]
    simp [projEvents]
  rw [h2] at h1
  have h3 := IsInit_trans h1 (hprog i)
  have hene1 : e ≠ .lockAcquire := by
    intro h
    subst h
    simp [capabilityEvent] at hcap
  have hene2 : e ≠ .lockRelease := by
    intro h
    subst h
    simp [capabilityEvent] at hcap
  rcases get_chk_trace_shape (cfg i).1 (cfg i).2 with hsh | ⟨mid, hsh, hmid⟩
  · rw [hsh] at h3
    rcases h3 with ⟨r, hr⟩
    exact absurd hr (by simp)
  · rw [hsh] at h3
    rcases h3 with ⟨r, hr⟩
    rcases hpq : projEvents i q with _ | ⟨x, w⟩
    · rw [hpq] at hr
      simp at hr
      exact absurd hr.1 hene1
    · rw [hpq] at hr
      simp only [List.cons_append] at hr
      injection hr with hx1 hx2
      have hlen : w.length ≤ mid.length := by
        have hll := congrArg List.length hx2
        simp at hll
        omega
      have hw : w = mid.take w.length := by
        have h5 := congrArg (List.take w.length) hx2
        rw [List.append_assoc, List.take_left,
          List.take_append_of_le_length hlen] at h5
        exact h5
      have hrelw : Event.lockRelease ∉ w := by
        rw [hw]
        intro hmem
        have hmem2 : Event.lockRelease ∈ mid := (List.take_sublist _ _).subset hmem
        have hcapm := hmid _ hmem2
        simp [capabilityEvent] at hcapm
      unfold holdsLock
      rw [hpq, hx1]
      have hz : w.count Event.lockRelease = 0 := List.count_eq_zero.mpr hrelw
      simp [List.count_cons, hz]

theorem gate_balanced (p : OsPath) (A : Archive) :
    (get_chk_from_mpq_filename p A).2.count .lockAcquire =
      (get_chk_from_mpq_filename p A).2.count .lockRelease ∧
    ((get_chk_from_mpq_filename p A).2 = [] ∨
      ((get_chk_from_mpq_filename p A).2.head? = some .lockAcquire ∧
       (get_chk_from_mpq_filename p A).2.getLast? = some .lockRelease)) := by
  rcases get_chk_trace_shape p A with h | ⟨mid, h, hmid⟩
  · rw [h]
    exact ⟨rfl, .inl rfl⟩
  · rw [h]
    have hz1 : mid.count Event.lockAcquire = 0 := by
      rw [List.count_eq_zero]
      intro hm
      have hcapm := hmid _ hm
      simp [capabilityEvent] at hcapm
    have hz2 : mid.count Event.lockRelease = 0 := by
      rw [List.count_eq_zero]
      intro hm
      have hcapm := hmid _ hm
      simp [capabilityEvent] at hcapm
    refine ⟨?_, .inr ⟨rfl, ?_⟩⟩
    · simp [List.count_cons, List.count_append, hz1, hz2]
    · rw [show Event.lockAcquire :: (mid ++ [Event.lockRelease]) =
        (Event.lockAcquire :: mid) ++ [Event.lockRelease] from rfl,
        List.getLast?_concat]

/-- Claim C9: the single process-wide gate enforces mutual exclusion over
the archive span.  First, under the mutex semantics at most one thread
holds the gate at any prefix of an admissible interleaving.  Second, when
each thread of an interleaving runs the extraction call (its projection is
an initial segment of an extraction trace), any capability interaction it
performs happens while it holds the gate — so at every instant at most one
thread is inside the archive-opening-through-closing span, and the gate is
taken before any capability interaction.  Third, on every exit path of a
call the gate is released: acquire and release counts agree, and a
non-empty trace starts with the acquisition and ends with the release. -/
theorem claim_C9_mutual_exclusion :
    (∀ (tt p : List (Nat × Event)) (i j : Nat),
      (mutexRun none tt).isSome = true → IsInit p tt →
      holdsLock i p → holdsLock j p → i = j) ∧
    (∀ (tt : List (Nat × Event)) (cfg : Nat → OsPath × Archive)
        (q : List (Nat × Event)) (i : Nat) (e : Event),
      (∀ k, IsInit (projEvents k tt)
        (get_chk_from_mpq_filename (cfg k).1 (cfg k).2).2) →
      IsInit (q ++ [(i, e)]) tt → capabilityEvent e = true →
      holdsLock i q) ∧
    (∀ (p : OsPath) (A : Archive),
      (get_chk_from_mpq_filename p A).2.count .lockAcquire =
        (get_chk_from_mpq_filename p A).2.count .lockRelease ∧
      ((get_chk_from_mpq_filename p A).2 = [] ∨
        ((get_chk_from_mpq_filename p A).2.head? = some .lockAcquire ∧
         (get_chk_from_mpq_filename p A).2.getLast? = some .lockRelease))) :=
  ⟨fun tt p i j hadm hp hi hj => holdsLock_unique tt p i j hadm hp hi hj,
   fun tt cfg q i e hprog hq hcap =>
     capability_inside_gate tt cfg hprog q i e hq hcap,
   gate_balanced⟩

/-- Witness for claim C9 on the concrete two-thread interleaving wTrace. -/
theorem claim_C9_witness :
    (0 : Nat) = 0 ∧
    holdsLock 0 [((0 : Nat), Event.lockAcquire)] ∧
    ((get_chk_from_mpq_filename okPath failOpenArchive).2.count .lockAcquire =
      (get_chk_from_mpq_filename okPath failOpenArchive).2.count .lockRelease ∧
     ((get_chk_from_mpq_filename okPath failOpenArchive).2 = [] ∨
      ((get_chk_from_mpq_filename okPath failOpenArchive).2.head? =
        some .lockAcquire ∧
       (get_chk_from_mpq_filename okPath failOpenArchive).2.getLast? =
        some .lockRelease))) :=
  ⟨claim_C9_mutual_exclusion.1 wTrace [(0, .lockAcquire)] 0 0 (by decide)
    ⟨[(0, .sFileOpenArchive false), (0, .lockRelease), (1, .lockAcquire),
      (1, .sFileOpenArchive false), (1, .lockRelease)], rfl⟩
    (by decide) (by decide),
   claim_C9_mutual_exclusion.2.1 wTrace (fun _ => (okPath, failOpenArchive))
    [(0, .lockAcquire)] 0 (.sFileOpenArchive false)
    (fun k => by
      match k with
      | 0 => exact ⟨[], rfl⟩
      | 1 => exact ⟨[], rfl⟩
      | (n + 2) => exact ⟨(get_chk_from_mpq_filename okPath failOpenArchive).2, rfl⟩)
    ⟨[(0, .lockRelease), (1, .lockAcquire), (1, .sFileOpenArchive false),
      (1, .lockRelease)], rfl⟩
    rfl,
   claim_C9_mutual_exclusion.2.2 okPath failOpenArchive⟩

end Bqmpq
